import Mathlib

/-!
Verification of the record-extraction engine of the tuffysearch scraper.

The development shallowly embeds the pure text-processing core of the
repository: the header parser and block classifier shared by
`main.py:get_course_info` and `reprocess.py:reprocess_course`, the block
segmenter, the Unicode normalizer of `modules/util.py:clean_text`, and the
row-alignment loops of `main.py` / `scrape.py:loop_through_courses`.

Strings are modelled as `List Char`; Python's fallible operations
(`list[i]`, `int(...)`) return `Option`; Python's `str.rfind` sentinel `-1`
and slice clamping are modelled explicitly over `Int` indices.
-/

namespace TuffyScraper

/-- Whitespace as stripped by Python's `str.strip()` (restricted to the
code points that can occur in this pipeline: ASCII whitespace and NBSP). -/
def pyIsSpace (c : Char) : Bool :=
  c = ' ' || c = '\t' || c = '\n' || c = '\r' || c = '\x0b' || c = '\x0c' || c = ' '

/-- Python `str.lstrip()`. -/
def pyLstrip (s : List Char) : List Char := s.dropWhile pyIsSpace

/-- Python `str.rstrip()`. -/
def pyRstrip (s : List Char) : List Char := (s.reverse.dropWhile pyIsSpace).reverse

/-- Python `str.strip()`. -/
def pyStrip (s : List Char) : List Char := pyRstrip (pyLstrip s)

/-- The ASCII uppercase letters paired with their lowercase forms. -/
def upperLower : List (Char × Char) :=
  [('A', 'a'), ('B', 'b'), ('C', 'c'), ('D', 'd'), ('E', 'e'), ('F', 'f'),
   ('G', 'g'), ('H', 'h'), ('I', 'i'), ('J', 'j'), ('K', 'k'), ('L', 'l'),
   ('M', 'm'), ('N', 'n'), ('O', 'o'), ('P', 'p'), ('Q', 'q'), ('R', 'r'),
   ('S', 's'), ('T', 't'), ('U', 'u'), ('V', 'v'), ('W', 'w'), ('X', 'x'),
   ('Y', 'y'), ('Z', 'z')]

/-- Python `str.lower()` on one character (ASCII range, which covers every
comparison made by the classifier's all-ASCII rule strings). -/
def pyToLower (c : Char) : Char :=
  match upperLower.find? (fun p => p.1 == c) with
  | some p => p.2
  | none => c

/-- Python `str.lower()` on a whole string. -/
def pyLower (s : List Char) : List Char := s.map pyToLower

/-- Python `s.startswith(p)`; the first argument is `s`. -/
def pyStartsWith : List Char → List Char → Bool
  | _, [] => true
  | [], _ :: _ => false
  | x :: xs, y :: ys => x = y && pyStartsWith xs ys

/-- Python `sub in s` (substring containment); the first argument is `s`. -/
def pyContainsSub : List Char → List Char → Bool
  | [], sub => pyStartsWith [] sub
  | x :: xs, sub => pyStartsWith (x :: xs) sub || pyContainsSub xs sub

/-- Python `s.split(c)` for a one-character separator: every occurrence
splits, empty pieces are kept, `"".split(c) = [""]`. -/
def pySplitAll (c : Char) : List Char → List (List Char)
  | [] => [[]]
  | x :: xs =>
    if x = c then [] :: pySplitAll c xs
    else
      match pySplitAll c xs with
      | [] => [[x]]
      | h :: t => (x :: h) :: t

/-- Python `s.split(c, maxsplit=1)`: split at the first occurrence only. -/
def pySplit1 (c : Char) : List Char → List (List Char)
  | [] => [[]]
  | x :: xs =>
    if x = c then [[], xs]
    else
      match pySplit1 c xs with
      | [] => [[x]]
      | h :: t => (x :: h) :: t

/-- Index (from the front) of the last occurrence of `c`, if any. -/
def lastIdx? (c : Char) : List Char → Option Nat
  | [] => none
  | x :: xs =>
    match lastIdx? c xs with
    | some i => some (i + 1)
    | none => if x = c then some 0 else none

/-- Python `s.rfind(c)`: index of the last occurrence, `-1` when absent. -/
def pyRfind (c : Char) (s : List Char) : Int :=
  match lastIdx? c s with
  | some i => (i : Int)
  | none => -1

/-- Normalize one Python slice endpoint for a sequence of length `n`:
negative indices count from the end, then the result is clamped to `[0, n]`. -/
def pyIdx (n : Nat) (i : Int) : Nat :=
  let j := if i < 0 then i + n else i
  if j < 0 then 0 else min j.toNat n

/-- Python slice `s[a:b]` with full clamping semantics. -/
def pySlice (s : List Char) (a b : Int) : List Char :=
  (s.take (pyIdx s.length b)).drop (pyIdx s.length a)

/-- Python `c.isdigit()` restricted to the ASCII digits that occur in
course numbers. -/
def pyIsDigit (c : Char) : Bool := '0' ≤ c && c ≤ '9'

/-- Decimal value of a digit string. -/
def digitsToNat (s : List Char) : Nat :=
  s.foldl (fun n c => 10 * n + (c.toNat - 48)) 0

/-- Python `int(s)` on a string already known to consist of digits when it
succeeds: `int("")` and `int` of a non-digit raise `ValueError` (`none`). -/
def pyIntDigits (s : List Char) : Option Nat :=
  if s ≠ [] ∧ s.all pyIsDigit then some (digitsToNat s) else none

/-- Python `int(s)` as used on scraped identifiers: optional surrounding
whitespace, optional sign, then decimal digits (underscore separators do
not occur in this data and are not modelled). -/
def pyInt (s : List Char) : Option Int :=
  match pyStrip s with
  | [] => none
  | '+' :: ds => if ds ≠ [] ∧ ds.all pyIsDigit then some ((digitsToNat ds : Nat) : Int) else none
  | '-' :: ds => if ds ≠ [] ∧ ds.all pyIsDigit then some (-((digitsToNat ds : Nat) : Int)) else none
  | ds => if ds.all pyIsDigit then some ((digitsToNat ds : Nat) : Int) else none

/-!
Header parsing, shared verbatim by `main.py:get_course_info` (lines 83-93)
and `reprocess.py:reprocess_course` (lines 14-23):

    course_parts = course_header.split("-", maxsplit=1)
    course_code = course_parts[0].strip()
    title_and_units = course_parts[1].strip()
    units = title_and_units[title_and_units.rfind("(") + 1 : title_and_units.rfind(")")]
    course_title = title_and_units[: title_and_units.rfind("(")].strip()

`course_parts[1]` raises `IndexError` when the header has no "-"; the
`rfind` calls never raise, they return `-1`, and slicing proceeds.
-/

/-- Header parsing of `reprocess.py` lines 14-23 / `main.py` lines 83-93.
Returns `(course_code, title, units)`; `none` models the `IndexError`
raised by `course_parts[1]` when the header contains no `'-'`. -/
def parseHeader (header : List Char) : Option (List Char × List Char × List Char) :=
  match pySplit1 '-' header with
  | p0 :: p1 :: _ =>
    let course_code := pyStrip p0
    let title_units := pyStrip p1
    let units := pySlice title_units (pyRfind '(' title_units + 1) (pyRfind ')' title_units)
    let title := pyStrip (pySlice title_units 0 (pyRfind '(' title_units))
    some (course_code, title, units)
  | _ => none

/-- Course-level extraction of `reprocess.py` lines 27-34 / `main.py`
lines 147-154: `course_code.split(" ")[1]` (single-space split, index 1 can
raise), then accumulate leading digits until the first non-digit, then
`int(...)` (raises on an empty digit string). -/
def courseLevel (course_code : List Char) : Option Nat :=
  match (pySplitAll ' ' course_code).get? 1 with
  | none => none
  | some course_number => pyIntDigits (course_number.takeWhile pyIsDigit)

/-- Python `s.split()` with no separator: split on runs of whitespace and
drop empty pieces. Used only to state the spec's notion of
"whitespace-separated token"; the source itself uses `split(" ")`. -/
def wsTokens (s : List Char) : List (List Char) :=
  (List.splitOnP (fun c => pyIsSpace c) s).filter (fun t => t ≠ [])

/-!
The Unicode normalizer of `modules/util.py`.
-/

/-- REPLACE_CHAR_MAP of `modules/util.py` lines 4-17, verbatim. -/
def REPLACE_CHAR_MAP : List (Char × List Char) :=
  [ (' ', " ".toList),
    ('©', "(c)".toList),
    ('®', "(r)".toList),
    ('¿', "?".toList),
    ('Á', "A".toList),
    ('Í', "I".toList),
    ('é', "e".toList),
    ('ñ', "n".toList),
    ('–', "-".toList),
    ('’', "'".toList),
    ('“', "\"".toList),
    ('”', "\"".toList) ]

/-- Lookup in REPLACE_CHAR_MAP. -/
def replaceLookup (c : Char) : Option (List Char) :=
  (REPLACE_CHAR_MAP.find? (fun p => p.1 = c)).map (fun p => p.2)

/-- The per-character action of `str.translate(TRANSLATION_TABLE)`. -/
def translateChar (c : Char) : List Char :=
  match replaceLookup c with
  | some r => r
  | none => [c]

/-- The string returned by `clean_text` (`modules/util.py` line 40):
`text.translate(TRANSLATION_TABLE)`. -/
def cleanText (text : List Char) : List Char :=
  text.foldr (fun c acc => translateChar c ++ acc) []

/-- The set of characters diagnosed by `clean_text` (`modules/util.py`
lines 30-39): the distinct characters of the input with code point above
127 and absent from REPLACE_CHAR_MAP, here in first-occurrence order (the
source prints them sorted by code point; multiplicity — one line per
distinct character — is what matters). -/
def unknownChars (text : List Char) : List Char :=
  text.foldl
    (fun acc c =>
      if 127 < c.toNat ∧ replaceLookup c = none ∧ ¬ acc.contains c then acc ++ [c] else acc)
    []

/-!
The block segmenter, inlined identically in `main.py:get_course_info`
(lines 96-110) and `scrape.py:get_course_info` (lines 71-85).  A sibling
node is either a `<br>` tag or any other node carrying visible text.
-/

/-- One sibling node after the `<hr>` separator. -/
inductive Node where
  | br : Node
  | txt : List Char → Node
deriving DecidableEq

/-- The sibling walk of `main.py` lines 99-110: `cur` is `current_block`,
`acc` the accumulated `blocks` list. -/
def segGo : List Node → List Char → List (List Char) → List (List Char)
  | [], cur, acc => if pyStrip cur ≠ [] then acc ++ [pyStrip cur] else acc
  | Node.br :: ns, cur, acc =>
    if pyStrip cur ≠ [] then segGo ns [] (acc ++ [pyStrip cur]) else segGo ns cur acc
  | Node.txt t :: ns, cur, acc =>
    if pyStrip t ≠ [] then segGo ns (cur ++ ' ' :: pyStrip t) acc else segGo ns cur acc

/-- Block segmentation of `main.py` lines 96-110. -/
def segmentBlocks (ns : List Node) : List (List Char) := segGo ns [] []

/-- The sibling walk of `scrape.py` lines 74-85: identical to `segGo`
except that each completed block passes through `clean_text`. -/
def segGoClean : List Node → List Char → List (List Char) → List (List Char)
  | [], cur, acc => if pyStrip cur ≠ [] then acc ++ [cleanText (pyStrip cur)] else acc
  | Node.br :: ns, cur, acc =>
    if pyStrip cur ≠ [] then segGoClean ns [] (acc ++ [cleanText (pyStrip cur)])
    else segGoClean ns cur acc
  | Node.txt t :: ns, cur, acc =>
    if pyStrip t ≠ [] then segGoClean ns (cur ++ ' ' :: pyStrip t) acc else segGoClean ns cur acc

/-- Block segmentation of `scrape.py` lines 71-85. -/
def segmentBlocksClean (ns : List Node) : List (List Char) := segGoClean ns [] []

/-- The space-joined accumulation of the siblings' visible text: exactly
what `current_block` holds after walking `ns` when no `<br>` occurs (each
sibling contributes `" " + text.strip()` when that is non-empty). -/
def visibleJoin : List Node → List Char
  | [] => []
  | Node.br :: ns => visibleJoin ns
  | Node.txt t :: ns => (if pyStrip t = [] then [] else ' ' :: pyStrip t) ++ visibleJoin ns

/-!
Course records.  `RawCourse` is `models/courses.py:RawCourse` (produced by
`scrape.py`, consumed by `reprocess.py`); `ProcessedCourse` is
`models/courses.py:ProcessedCourse`.  `MainPy.Course` is the dictionary
built by `main.py:get_course_info`, whose heuristic fields are optional
keys (absent until a matching block is seen) and whose `course_level` is
assigned last.
-/

structure RawCourse where
  course_id : Int
  department : List Char
  header : List Char
  blocks : List (List Char)
deriving DecidableEq

structure ProcessedCourse where
  course_id : Int
  department : List Char
  course_level : Nat
  title : List Char
  description : List Char
  course_code : List Char
  units : List Char
  prerequisites : List Char
  grad_credit : Bool
  available_online : Bool
  requires_dept_consent : Bool
  typically_offered : List Char
deriving DecidableEq

namespace MainPy

structure Course where
  title : List Char
  description : List Char
  department : List Char
  course_code : List Char
  course_id : Int
  units : List Char
  prereqs : Option (List Char) := none
  grad_credit : Option Bool := none
  available_online : Option Bool := none
  requires_dept_consent : Option Bool := none
  typically_offered : Option (List Char) := none
  course_level : Nat := 0
deriving DecidableEq

end MainPy

/-!
The block classifiers.  The two loops (`main.py` lines 124-143 and
`reprocess.py` lines 54-73) test the same first five rules; they differ in
rule 6: `main.py` matches the prefix `"typically offered:"` while
`reprocess.py` matches `"typically offered"` and then evaluates
`block.split(":")[1]`, which raises `IndexError` when the block contains
no colon.  An unmatched block is printed and changes nothing.
-/

namespace ReprocessPy

/-- One iteration of the classifier loop of `reprocess.py` lines 54-73.
`none` models the `IndexError` in `block.split(":")[1]`. -/
def classifyBlock (pc : ProcessedCourse) (block : List Char) : Option ProcessedCourse :=
  let lb := pyLower block
  if pyContainsSub lb "requisite".toList || pyStartsWith lb "prereq".toList then
    some { pc with prerequisites := block }
  else if lb = "undergraduate course not available for graduate credit".toList then
    some { pc with grad_credit := false }
  else if lb = "graduate-level".toList
      || lb = "400-level undergraduate course available for graduate credit".toList then
    some { pc with grad_credit := true }
  else if lb = "one or more sections may be offered in any online format.".toList then
    some { pc with available_online := true }
  else if lb = "department consent required".toList then
    some { pc with requires_dept_consent := true }
  else if pyStartsWith lb "typically offered".toList then
    match (pySplitAll ':' block).get? 1 with
    | some t => some { pc with typically_offered := pyStrip t }
    | none => none
  else some pc

/-- The classifier loop of `reprocess.py` over `course["blocks"][1:]`. -/
def classifyBlocks : ProcessedCourse → List (List Char) → Option ProcessedCourse
  | pc, [] => some pc
  | pc, b :: bs =>
    match classifyBlock pc b with
    | none => none
    | some pc2 => classifyBlocks pc2 bs

/-- `reprocess.py:reprocess_course` (lines 8-74): header parse, course
level, defaults with `blocks[0]` as description, then the classifier loop
over `blocks[1:]`.  `none` models any of its uncaught exceptions. -/
def reprocess_course (course : RawCourse) : Option ProcessedCourse := do
  let (course_code, title, units) ← parseHeader course.header
  let course_level ← courseLevel course_code
  let description ← course.blocks.get? 0
  let init : ProcessedCourse :=
    { course_id := course.course_id
      department := course.department
      course_level := course_level
      title := title
      description := description
      course_code := course_code
      units := units
      prerequisites := []
      grad_credit := false
      available_online := false
      requires_dept_consent := false
      typically_offered := [] }
  classifyBlocks init course.blocks.tail

end ReprocessPy

namespace MainPy

/-- One iteration of the classifier loop of `main.py` lines 124-143. -/
def classifyBlock (c : Course) (block : List Char) : Option Course :=
  let lb := pyLower block
  if pyContainsSub lb "requisite".toList || pyStartsWith lb "prereq".toList then
    some { c with prereqs := some block }
  else if lb = "undergraduate course not available for graduate credit".toList then
    some { c with grad_credit := some false }
  else if lb = "graduate-level".toList
      || lb = "400-level undergraduate course available for graduate credit".toList then
    some { c with grad_credit := some true }
  else if lb = "one or more sections may be offered in any online format.".toList then
    some { c with available_online := some true }
  else if lb = "department consent required".toList then
    some { c with requires_dept_consent := some true }
  else if pyStartsWith lb "typically offered:".toList then
    match (pySplitAll ':' block).get? 1 with
    | some t => some { c with typically_offered := some (pyStrip t) }
    | none => none
  else some c

/-- The classifier loop of `main.py` over `blocks[1:]`. -/
def classifyBlocks : Course → List (List Char) → Option Course
  | c, [] => some c
  | c, b :: bs =>
    match classifyBlock c b with
    | none => none
    | some c2 => classifyBlocks c2 bs

/-- `main.py:get_course_info` (lines 53-155).  The expanded cell is
abstracted to its `<h3>` text and the sibling nodes after the `<hr>`
separator; `none` for the pair models the `AttributeError` when either tag
is missing, and `none` overall any uncaught exception of the function. -/
def get_course_info (frag : Option (List Char × List Node)) (course_id : Int)
    (department : List Char) : Option Course := do
  let (h3, siblings) ← frag
  let course_header := pyStrip h3
  let (course_code, course_title, units) ← parseHeader course_header
  let blocks := segmentBlocks siblings
  let d0 ← blocks.get? 0
  let course : Course :=
    { title := pyStrip course_title
      description := pyStrip d0
      department := department
      course_code := pyStrip course_code
      course_id := course_id
      units := units }
  let course2 ← classifyBlocks course blocks.tail
  let course_level ← courseLevel course_code
  some { course2 with course_level := course_level }

end MainPy

namespace ScrapePy

/-- `scrape.py:get_course_info` (lines 56-93): no field classification,
just the cleaned header and cleaned blocks bundled as a `RawCourse`. -/
def get_course_info (frag : Option (List Char × List Node)) (course_id : Int)
    (department : List Char) : Option RawCourse := do
  let (h3, siblings) ← frag
  some { course_id := course_id
         department := department
         header := cleanText (pyStrip h3)
         blocks := segmentBlocksClean siblings }

end ScrapePy

/-!
Row alignment (`loop_through_courses` of `main.py` lines 158-206 and
`scrape.py` lines 96-144).  A table row is abstracted to what the loop
inspects: its `<td>` count, the text of `td>p>strong` when present (for
section headers), and for content rows the payload of `td[1]`.
-/

/-- An expanded-table row. -/
structure ERow where
  tds : Nat
  strong : Option (List Char)
  frag : Option (List Char × List Node)
deriving DecidableEq

/-- An unexpanded-table row: the `href` of the first `<a>` of `td[1]`,
when present. -/
structure URow where
  tds : Nat
  href : Option (List Char)
deriving DecidableEq

/-- Helper for `pySplitSub`: scans the string left to right; `skip` counts
characters of an already-matched separator still to be consumed, `acc` is
the current piece reversed. -/
def splitSubGo (sep : List Char) : List Char → Nat → List Char → List (List Char)
  | [], _, acc => [acc.reverse]
  | _ :: xs, Nat.succ k, acc => splitSubGo sep xs k acc
  | x :: xs, 0, acc =>
    if pyStartsWith (x :: xs) sep ∧ sep ≠ [] then
      acc.reverse :: splitSubGo sep xs (sep.length - 1) []
    else splitSubGo sep xs 0 (x :: acc)

/-- Python `s.split(sep)` for a non-empty multi-character separator, as in
`href.split("coid=")`: non-overlapping left-to-right matches. -/
def pySplitSub (sep : List Char) (s : List Char) : List (List Char) :=
  splitSubGo sep s 0 []

/-- `get_course_id` of `main.py` lines 40-50 / `scrape.py` lines 43-53:
`int(href.split("coid=")[1])`; `none` models a missing `<a>`/`href`, a
missing `"coid="`, or a non-numeric remainder. -/
def get_course_id (u : URow) : Option Int := do
  let href ← u.href
  let s ← (pySplitSub "coid=".toList href).get? 1
  pyInt s

/-- Python-dict insertion `d[k] = v`: replace the value of the existing
key in place, otherwise append at the end (exactly a Python dict's
update/insert behaviour on its key-unique entry list).  `main.py` keys
courses by `str(course_id)`; since `str` is injective on integers the
model keys by the integer. -/
def pyDictInsert {α : Type} : List (Int × α) → Int → α → List (Int × α)
  | [], k, v => [(k, v)]
  | p :: ps, k, v => if p.1 == k then (k, v) :: ps else p :: pyDictInsert ps k v

/-- Python-dict lookup `d[k]` (as an `Option`). -/
def pyDictGet {α : Type} (d : List (Int × α)) (k : Int) : Option α :=
  (d.find? (fun p => p.1 == k)).map (fun p => p.2)

namespace MainPy

/-- Dictionary of courses keyed by course id (`main.py`). -/
abbrev MDict := List (Int × Course)

/-- The body of one iteration of `main.py:loop_through_courses` (lines
179-206) on a row pair: skip/update-section for non-content rows, else
extract the id, build the course and insert it.  The state is
`(current_section, courses)`; `none` models an exception escaping the
body. -/
def rowStep (eu : ERow × URow) (sd : List Char × MDict) : Option (List Char × MDict) :=
  let e := eu.1
  let u := eu.2
  if e.tds ≠ 2 ∨ u.tds ≠ 2 then
    if e.tds = 1 then
      match e.strong with
      | some l => some (pyStrip l, sd.2)
      | none => some (sd.1, sd.2)
    else some (sd.1, sd.2)
  else do
    let cid ← get_course_id u
    let course ← get_course_info e.frag cid sd.1
    some (sd.1, pyDictInsert sd.2 cid course)

/-- The loop over already-zipped row pairs (used to state that equal-length
inputs are walked pairwise in document order). -/
def loopPairs : List (ERow × URow) → List Char × MDict → MDict × Bool
  | [], sd => (sd.2, true)
  | p :: ps, sd =>
    match rowStep p sd with
    | none => (sd.2, false)
    | some sd2 => loopPairs ps sd2

/-- The `for ... in zip(expanded, unexpanded, strict=True)` loop of
`main.py` lines 176-206.  Python's strict `zip` yields the common prefix
of pairs and only then raises `ValueError` on a length mismatch, so the
dictionary keeps every insertion made before the mismatch was detected;
the `Bool` is `false` when the loop terminated by an exception. -/
def loopGo : List ERow → List URow → List Char × MDict → MDict × Bool
  | [], [], sd => (sd.2, true)
  | [], _ :: _, sd => (sd.2, false)
  | _ :: _, [], sd => (sd.2, false)
  | e :: es, u :: us, sd =>
    match rowStep (e, u) sd with
    | none => (sd.2, false)
    | some sd2 => loopGo es us sd2

/-- `main.py:loop_through_courses`: `current_section` starts empty. -/
def loop_through_courses (es : List ERow) (us : List URow) (courses : MDict) :
    MDict × Bool :=
  loopGo es us ([], courses)

end MainPy

namespace ScrapePy

/-- The body of one iteration of `scrape.py:loop_through_courses` (lines
117-144); identical to `main.py`'s except that the course is appended to a
list. -/
def rowStep (eu : ERow × URow) (sd : List Char × List RawCourse) :
    Option (List Char × List RawCourse) :=
  let e := eu.1
  let u := eu.2
  if e.tds ≠ 2 ∨ u.tds ≠ 2 then
    if e.tds = 1 then
      match e.strong with
      | some l => some (pyStrip l, sd.2)
      | none => some (sd.1, sd.2)
    else some (sd.1, sd.2)
  else do
    let cid ← get_course_id u
    let course ← get_course_info e.frag cid sd.1
    some (sd.1, sd.2 ++ [course])

/-- The loop over already-zipped row pairs (used to state that equal-length
inputs are walked pairwise in document order). -/
def loopPairs : List (ERow × URow) → List Char × List RawCourse →
    List RawCourse × Bool
  | [], sd => (sd.2, true)
  | p :: ps, sd =>
    match rowStep p sd with
    | none => (sd.2, false)
    | some sd2 => loopPairs ps sd2

/-- The strict-zip loop of `scrape.py` lines 114-144. -/
def loopGo : List ERow → List URow → List Char × List RawCourse →
    List RawCourse × Bool
  | [], [], sd => (sd.2, true)
  | [], _ :: _, sd => (sd.2, false)
  | _ :: _, [], sd => (sd.2, false)
  | e :: es, u :: us, sd =>
    match rowStep (e, u) sd with
    | none => (sd.2, false)
    | some sd2 => loopGo es us sd2

/-- `scrape.py:loop_through_courses`. -/
def loop_through_courses (es : List ERow) (us : List URow)
    (courses : List RawCourse) : List RawCourse × Bool :=
  loopGo es us ([], courses)

end ScrapePy

/-!
Definitions used only to state claims (spec-side vocabulary).
-/

/-- The text strictly between the first colon of a block and the next
colon (or the end of the block): what `block.split(":")[1]` denotes when a
colon is present. -/
def afterFirstColon (block : List Char) : List Char :=
  ((block.dropWhile (fun c => c != ':')).tail).takeWhile (fun c => c != ':')

/-- The trimmed remainder of a block after its first colon, i.e. all text
following the first `':'` — the value claimed (but not computed) by the
spec for the typical-offering field. -/
def remainderAfterFirstColon (block : List Char) : List Char :=
  pyStrip ((block.dropWhile (fun c => c != ':')).tail)

/-- Agreement of the five heuristic fields between a `main.py` course
dictionary and a `reprocess.py` processed course, reading an absent
`main.py` key as the corresponding `reprocess.py` default. -/
def FieldsAgree (c : MainPy.Course) (pc : ProcessedCourse) : Prop :=
  pc.prerequisites = c.prereqs.getD [] ∧
  pc.grad_credit = c.grad_credit.getD false ∧
  pc.available_online = c.available_online.getD false ∧
  pc.requires_dept_consent = c.requires_dept_consent.getD false ∧
  pc.typically_offered = c.typically_offered.getD []

/-- The value last inserted with key `k` in a sequence of insertions. -/
def lastWrite {α : Type} (k : Int) (inserts : List (Int × α)) : Option α :=
  (inserts.reverse.find? (fun p => p.1 == k)).map (fun p => p.2)

/-!
Concrete inputs for witnesses and counterexamples.
-/

/-- An empty-field processed course, usable as a classifier start state. -/
def pcInit : ProcessedCourse :=
  { course_id := 0, department := [], course_level := 0, title := [], description := []
    course_code := [], units := [], prerequisites := [], grad_credit := false
    available_online := false, requires_dept_consent := false, typically_offered := [] }

/-- A `main.py` course dictionary before the classifier loop runs. -/
def mInit : MainPy.Course :=
  { title := [], description := [], department := [], course_code := []
    course_id := 0, units := [] }

/-- The example header of the source's docstrings. -/
def hdrACCT : List Char := "ACCT 201A - Financial Accounting (3)".toList

/-- A content row of the expanded rendering. -/
def eContent : ERow :=
  { tds := 2, strong := none
    frag := some (hdrACCT, [Node.txt "Accounting concepts and techniques.".toList]) }

/-- A second content row with a different header. -/
def eContent2 : ERow :=
  { tds := 2, strong := none
    frag := some ("ACCT 201B - Managerial Accounting (3)".toList,
                  [Node.txt "Second description.".toList]) }

/-- A content row of the unexpanded rendering carrying id 594896. -/
def uContent : URow :=
  { tds := 2, href := some "preview_course_nopop.php?catoid=95&coid=594896".toList }

/-!
Helper lemmas about the Python string primitives.
-/

theorem dropWhile_idem {α : Type} (p : α → Bool) (l : List α) :
    List.dropWhile p (List.dropWhile p l) = List.dropWhile p l := by
  induction l with
  | nil => rfl
  | cons x xs ih =>
    by_cases h : p x
    · simp [List.dropWhile_cons, h, ih]
    · simp [List.dropWhile_cons, h]

theorem pyLstrip_idem (s : List Char) : pyLstrip (pyLstrip s) = pyLstrip s :=
  dropWhile_idem pyIsSpace s

theorem pyRstrip_idem (s : List Char) : pyRstrip (pyRstrip s) = pyRstrip s := by
  simp [pyRstrip, dropWhile_idem]

theorem pyRstrip_append_trailing (s : List Char) : ∃ w, s = pyRstrip s ++ w := by
  refine ⟨(s.reverse.takeWhile pyIsSpace).reverse, ?_⟩
  conv_lhs => rw [← List.reverse_reverse s,
    ← List.takeWhile_append_dropWhile pyIsSpace s.reverse]
  rw [List.reverse_append]
  rfl

theorem pyLstrip_cons_of_space {c : Char} (h : pyIsSpace c = true) (s : List Char) :
    pyLstrip (c :: s) = pyLstrip s := by
  simp [pyLstrip, List.dropWhile_cons, h]

theorem pyLstrip_cons_of_not_space {c : Char} (h : pyIsSpace c = false) (s : List Char) :
    pyLstrip (c :: s) = c :: s := by
  simp [pyLstrip, List.dropWhile_cons, h]

theorem pyStrip_idem (s : List Char) : pyStrip (pyStrip s) = pyStrip s := by
  show pyRstrip (pyLstrip (pyRstrip (pyLstrip s))) = pyRstrip (pyLstrip s)
  have key : pyLstrip (pyRstrip (pyLstrip s)) = pyRstrip (pyLstrip s) := by
    obtain ⟨w, hw⟩ := pyRstrip_append_trailing (pyLstrip s)
    cases hr : pyRstrip (pyLstrip s) with
    | nil => rfl
    | cons x u =>
      have hx : pyIsSpace x = false := by
        by_contra hx
        rw [Bool.not_eq_false] at hx
        have hls : pyLstrip (pyLstrip s) = pyLstrip s := pyLstrip_idem s
        rw [hw, hr] at hls
        rw [List.cons_append, pyLstrip_cons_of_space hx] at hls
        have hlen := congrArg List.length hls
        rw [List.length_cons] at hlen
        have hle : (pyLstrip (u ++ w)).length ≤ (u ++ w).length :=
          List.Sublist.length_le (List.dropWhile_sublist pyIsSpace)
        omega
      rw [pyLstrip_cons_of_not_space hx]
  rw [key, pyRstrip_idem]

theorem pyLstrip_append (xs ys : List Char) :
    pyLstrip (xs ++ ys) =
      if xs.all pyIsSpace then pyLstrip ys else pyLstrip xs ++ ys := by
  induction xs with
  | nil => simp [pyLstrip]
  | cons x xs ih =>
    by_cases h : pyIsSpace x
    · rw [List.cons_append, pyLstrip_cons_of_space h, ih,
        pyLstrip_cons_of_space h]
      simp [h]
    · rw [Bool.not_eq_true] at h
      rw [List.cons_append, pyLstrip_cons_of_not_space h,
        pyLstrip_cons_of_not_space h]
      simp [h]

theorem pyRstrip_append_space {c : Char} (h : pyIsSpace c = true) (xs : List Char) :
    pyRstrip (xs ++ [c]) = pyRstrip xs := by
  simp [pyRstrip, List.reverse_append, List.dropWhile_cons, h]

theorem pyRstrip_append_not_space {c : Char} (h : pyIsSpace c = false) (xs : List Char) :
    pyRstrip (xs ++ [c]) = xs ++ [c] := by
  simp [pyRstrip, List.reverse_append, List.dropWhile_cons, h]

theorem pyStrip_all_space {xs : List Char} (h : xs.all pyIsSpace = true) :
    pyStrip xs = [] := by
  have h1 : pyLstrip xs = [] := by
    unfold pyLstrip
    exact List.dropWhile_eq_nil_iff.mpr (fun x hx => List.all_eq_true.mp h x hx)
  unfold pyStrip
  rw [h1]
  rfl

theorem pyStrip_append_space (xs : List Char) : pyStrip (xs ++ [' ']) = pyStrip xs := by
  by_cases h : xs.all pyIsSpace
  · have h2 : (xs ++ [' ']).all pyIsSpace = true := by
      rw [List.all_append, h]
      rfl
    rw [pyStrip_all_space h2, pyStrip_all_space h]
  · unfold pyStrip
    rw [pyLstrip_append, if_neg h, pyRstrip_append_space (by decide)]

theorem pyStrip_cons_space (z : List Char) : pyStrip (' ' :: z) = pyStrip z := by
  unfold pyStrip
  rw [pyLstrip_cons_of_space (by decide)]

theorem pyStrip_last_not_space {c : Char} (h : pyIsSpace c = false) (xs : List Char) :
    pyStrip (xs ++ [c]) = pyLstrip (xs ++ [c]) := by
  unfold pyStrip
  rw [pyLstrip_append]
  by_cases ha : xs.all pyIsSpace
  · rw [if_pos ha, pyLstrip_cons_of_not_space h]
    have h0 := pyRstrip_append_not_space h []
    simpa using h0
  · rw [if_neg ha]
    exact pyRstrip_append_not_space h (pyLstrip xs)

theorem lastIdx?_eq_none_iff {c : Char} {s : List Char} :
    lastIdx? c s = none ↔ c ∉ s := by
  induction s with
  | nil => simp [lastIdx?]
  | cons x xs ih =>
    simp only [lastIdx?]
    cases h : lastIdx? c xs with
    | some i =>
      have hc : c ∈ xs := by
        by_contra hc
        have h2 := ih.mpr hc
        rw [h] at h2
        exact Option.noConfusion h2
      simp [List.mem_cons, hc]
    | none =>
      have hnx : c ∉ xs := ih.mp h
      by_cases hx : x = c
      · simp [hx, List.mem_cons]
      · have : ¬ (c = x) := fun he => hx he.symm
        simp [hx, List.mem_cons, this, hnx]

theorem lastIdx?_cons_self {c : Char} {xs : List Char} (h : c ∉ xs) :
    lastIdx? c (c :: xs) = some 0 := by
  simp only [lastIdx?, lastIdx?_eq_none_iff.mpr h]
  simp

theorem lastIdx?_append_right {c : Char} {ys : List Char} {i : Nat}
    (h : lastIdx? c ys = some i) (xs : List Char) :
    lastIdx? c (xs ++ ys) = some (xs.length + i) := by
  induction xs with
  | nil => simpa using h
  | cons x xt ih =>
    simp only [List.cons_append, lastIdx?, List.append_eq, ih]
    simp only [List.length_cons, Option.some.injEq]
    omega

theorem lastIdx?_lt_length {c : Char} {s : List Char} {i : Nat}
    (h : lastIdx? c s = some i) : i < s.length := by
  induction s generalizing i with
  | nil => simp [lastIdx?] at h
  | cons x xs ih =>
    simp only [lastIdx?] at h
    cases h2 : lastIdx? c xs with
    | some j =>
      rw [h2] at h
      have := ih h2
      simp only [Option.some.injEq] at h
      simp only [List.length_cons]
      omega
    | none =>
      rw [h2] at h
      by_cases hx : x = c
      · rw [if_pos hx] at h
        simp only [Option.some.injEq] at h
        simp only [List.length_cons]
        omega
      · rw [if_neg hx] at h
        cases h

theorem pyIdx_coe (n i : Nat) (h : i ≤ n) : pyIdx n (i : Int) = i := by
  have h0 : ¬ ((i : Int) < 0) := by omega
  simp only [pyIdx, if_neg h0, Int.toNat_natCast]
  show min i n = i
  omega

theorem pySlice_coe (s : List Char) (a b : Nat) (ha : a ≤ s.length) (hb : b ≤ s.length) :
    pySlice s (a : Int) (b : Int) = (s.take b).drop a := by
  unfold pySlice
  rw [pyIdx_coe _ _ hb, pyIdx_coe _ _ ha]

theorem pySlice_nat_succ (s : List Char) (i j : Nat) (h1 : i + 1 ≤ s.length)
    (h2 : j ≤ s.length) :
    pySlice s ((i : Int) + 1) (j : Int) = (s.take j).drop (i + 1) := by
  have e : ((i : Int) + 1) = ((i + 1 : Nat) : Int) := by push_cast; ring
  rw [e, pySlice_coe _ _ _ h1 h2]

theorem pySplit1_not_mem {c : Char} {s : List Char} (h : c ∉ s) :
    pySplit1 c s = [s] := by
  induction s with
  | nil => rfl
  | cons x xs ih =>
    have hx : ¬ (x = c) := fun he => h (he ▸ List.mem_cons_self x xs)
    have hxs : c ∉ xs := fun hm => h (List.mem_cons_of_mem _ hm)
    simp only [pySplit1, if_neg hx, ih hxs]

theorem pySplit1_split {c : Char} {xs : List Char} (h : c ∉ xs) (ys : List Char) :
    pySplit1 c (xs ++ c :: ys) = [xs, ys] := by
  induction xs with
  | nil => simp [pySplit1]
  | cons x xt ih =>
    have hx : ¬ (x = c) := fun he => h (he ▸ List.mem_cons_self x xt)
    have hxt : c ∉ xt := fun hm => h (List.mem_cons_of_mem _ hm)
    have e : (x :: xt) ++ c :: ys = x :: (xt ++ c :: ys) := rfl
    rw [e]
    simp only [pySplit1, if_neg hx]
    rw [ih hxt]

theorem pyStrip_lstrip (s : List Char) : pyStrip (pyLstrip s) = pyStrip s := by
  unfold pyStrip
  rw [pyLstrip_idem]

theorem pySlice_zero_zero (s : List Char) : pySlice s 0 0 = [] := by
  simp [pySlice, pyIdx]

theorem pySlice_zero_coe (s : List Char) (b : Nat) (hb : b ≤ s.length) :
    pySlice s 0 (b : Int) = s.take b := by
  have e : (0 : Int) = ((0 : Nat) : Int) := rfl
  rw [e, pySlice_coe s 0 b (Nat.zero_le _) hb, List.drop_zero]

theorem first_occurrence_split {c : Char} {s : List Char} (h : c ∈ s) :
    ∃ a b, c ∉ a ∧ s = a ++ c :: b := by
  induction s with
  | nil => cases h
  | cons x xs ih =>
    by_cases hx : x = c
    · exact ⟨[], xs, by simp, by rw [hx]; rfl⟩
    · have hm : c ∈ xs := by
        rcases List.mem_cons.mp h with h1 | h1
        · exact absurd h1.symm hx
        · exact h1
      obtain ⟨a, b, hna, he⟩ := ih hm
      refine ⟨x :: a, b, ?_, by rw [he]; rfl⟩
      intro hca
      rcases List.mem_cons.mp hca with h1 | h1
      · exact hx h1.symm
      · exact hna h1

/-!
Claim theorems.
-/

/-- C8 (amended).  For every CODE, TITLE, UNITS such that
`"<CODE> - <TITLE> (<UNITS>)"` is a valid header (CODE contains no "-",
UNITS contains no parenthesis), parsing that header returns the course
code and title each trimmed exactly once, and the unit range verbatim
(the source never strips the unit substring). -/
theorem header_parse_roundtrip (CODE TITLE UNITS : List Char)
    (hC : '-' ∉ CODE) (hU1 : '(' ∉ UNITS) (_hU2 : ')' ∉ UNITS) :
    parseHeader (CODE ++ " - ".toList ++ TITLE ++ " (".toList ++ UNITS ++ ")".toList) =
      some (pyStrip CODE, pyStrip TITLE, UNITS) := by
  have e : CODE ++ " - ".toList ++ TITLE ++ " (".toList ++ UNITS ++ ")".toList
      = (CODE ++ [' ']) ++ '-' :: (' ' :: (TITLE ++ ' ' :: '(' :: (UNITS ++ [')']))) := by
    simp [List.append_assoc]
  have hC1 : '-' ∉ CODE ++ [' '] := by
    intro hm
    rcases List.mem_append.mp hm with h1 | h1
    · exact hC h1
    · simp at h1
  rw [e]
  unfold parseHeader
  rw [pySplit1_split hC1]
  dsimp only
  have hpo : '(' ∉ UNITS ++ [')'] := by
    intro hm
    rcases List.mem_append.mp hm with h1 | h1
    · exact hU1 h1
    · simp at h1
  have htu : pyStrip (' ' :: (TITLE ++ ' ' :: '(' :: (UNITS ++ [')'])))
      = pyLstrip (TITLE ++ ' ' :: '(' :: (UNITS ++ [')'])) := by
    rw [pyStrip_cons_space]
    have e2 : TITLE ++ ' ' :: '(' :: (UNITS ++ [')'])
        = (TITLE ++ ' ' :: '(' :: UNITS) ++ [')'] := by
      simp [List.append_assoc]
    rw [e2, pyStrip_last_not_space (by decide), ← e2]
  rw [htu, pyStrip_append_space]
  by_cases hT : TITLE.all pyIsSpace
  · -- the title is all whitespace: stripping eats up to the "("
    have htu2 : pyLstrip (TITLE ++ ' ' :: '(' :: (UNITS ++ [')']))
        = '(' :: (UNITS ++ [')']) := by
      rw [pyLstrip_append, if_pos hT, pyLstrip_cons_of_space (by decide),
        pyLstrip_cons_of_not_space (by decide)]
    rw [htu2]
    have hL1 : lastIdx? '(' ('(' :: (UNITS ++ [')'])) = some 0 := lastIdx?_cons_self hpo
    have hL2 : lastIdx? ')' ('(' :: (UNITS ++ [')'])) = some (UNITS.length + 1) := by
      have h0 : lastIdx? ')' [')'] = some 0 := rfl
      have h1 := lastIdx?_append_right h0 ('(' :: UNITS)
      simpa using h1
    have hr1 : pyRfind '(' ('(' :: (UNITS ++ [')'])) = ((0 : Nat) : Int) := by
      unfold pyRfind
      rw [hL1]
    have hr2 : pyRfind ')' ('(' :: (UNITS ++ [')'])) = ((UNITS.length + 1 : Nat) : Int) := by
      unfold pyRfind
      rw [hL2]
    rw [hr1, hr2]
    rw [pySlice_nat_succ _ 0 (UNITS.length + 1) (by simp) (by simp)]
    have ht1 : ('(' :: (UNITS ++ [')'])).take (UNITS.length + 1) = '(' :: UNITS := by
      have e3 : '(' :: (UNITS ++ [')']) = ('(' :: UNITS) ++ [')'] := rfl
      rw [e3]
      exact List.take_left' (by simp)
    rw [ht1]
    have hd1 : ('(' :: UNITS).drop (0 + 1) = UNITS := rfl
    rw [hd1]
    rw [show ((0 : Nat) : Int) = (0 : Int) from rfl, pySlice_zero_zero]
    rw [pyStrip_all_space hT]
    rfl
  · -- the title survives stripping
    have htu2 : pyLstrip (TITLE ++ ' ' :: '(' :: (UNITS ++ [')']))
        = pyLstrip TITLE ++ ' ' :: '(' :: (UNITS ++ [')']) := by
      rw [pyLstrip_append, if_neg hT]
    rw [htu2]
    have e3 : pyLstrip TITLE ++ ' ' :: '(' :: (UNITS ++ [')'])
        = (pyLstrip TITLE ++ [' ']) ++ '(' :: (UNITS ++ [')']) := by
      simp [List.append_assoc]
    have e4 : pyLstrip TITLE ++ ' ' :: '(' :: (UNITS ++ [')'])
        = ((pyLstrip TITLE ++ [' ']) ++ '(' :: UNITS) ++ [')'] := by
      simp [List.append_assoc]
    have hL1 : lastIdx? '(' (pyLstrip TITLE ++ ' ' :: '(' :: (UNITS ++ [')']))
        = some ((pyLstrip TITLE).length + 1) := by
      rw [e3]
      have h1 := lastIdx?_append_right (lastIdx?_cons_self hpo) (pyLstrip TITLE ++ [' '])
      simpa using h1
    have hL2 : lastIdx? ')' (pyLstrip TITLE ++ ' ' :: '(' :: (UNITS ++ [')']))
        = some ((pyLstrip TITLE).length + UNITS.length + 2) := by
      rw [e4]
      have h0 : lastIdx? ')' [')'] = some 0 := rfl
      have h1 := lastIdx?_append_right h0 ((pyLstrip TITLE ++ [' ']) ++ '(' :: UNITS)
      rw [h1]
      simp only [Option.some.injEq, List.length_append, List.length_cons]
      simp
      omega
    have hr1 : pyRfind '(' (pyLstrip TITLE ++ ' ' :: '(' :: (UNITS ++ [')']))
        = (((pyLstrip TITLE).length + 1 : Nat) : Int) := by
      unfold pyRfind
      rw [hL1]
    have hr2 : pyRfind ')' (pyLstrip TITLE ++ ' ' :: '(' :: (UNITS ++ [')']))
        = (((pyLstrip TITLE).length + UNITS.length + 2 : Nat) : Int) := by
      unfold pyRfind
      rw [hL2]
    rw [hr1, hr2]
    have hlen : (pyLstrip TITLE ++ ' ' :: '(' :: (UNITS ++ [')'])).length
        = (pyLstrip TITLE).length + UNITS.length + 3 := by
      simp
      omega
    rw [pySlice_nat_succ _ ((pyLstrip TITLE).length + 1)
      ((pyLstrip TITLE).length + UNITS.length + 2) (by rw [hlen]; omega) (by rw [hlen]; omega)]
    have ht1 : (pyLstrip TITLE ++ ' ' :: '(' :: (UNITS ++ [')'])).take
        ((pyLstrip TITLE).length + UNITS.length + 2)
        = (pyLstrip TITLE ++ [' ']) ++ '(' :: UNITS := by
      rw [e4]
      refine List.take_left' ?_
      simp
      omega
    rw [ht1]
    have hd1 : ((pyLstrip TITLE ++ [' ']) ++ '(' :: UNITS).drop
        ((pyLstrip TITLE).length + 1 + 1) = UNITS := by
      have e5 : (pyLstrip TITLE ++ [' ']) ++ '(' :: UNITS
          = ((pyLstrip TITLE ++ [' ']) ++ ['(']) ++ UNITS := by
        simp [List.append_assoc]
      rw [e5]
      refine List.drop_left' ?_
      simp
    rw [hd1]
    rw [pySlice_zero_coe _ _ (by rw [hlen]; omega)]
    have ht2 : (pyLstrip TITLE ++ ' ' :: '(' :: (UNITS ++ [')'])).take
        ((pyLstrip TITLE).length + 1) = pyLstrip TITLE ++ [' '] := by
      rw [e3]
      refine List.take_left' ?_
      simp
    rw [ht2, pyStrip_append_space, pyStrip_lstrip]

/-- Witness for C8's theorem at the header
`"ACCT 201A -  Financial Accounting  (3)"`. -/
theorem header_parse_roundtrip_witness :
    parseHeader ("ACCT 201A".toList ++ " - ".toList ++ " Financial Accounting ".toList ++
        " (".toList ++ "3".toList ++ ")".toList) =
      some (pyStrip "ACCT 201A".toList, pyStrip " Financial Accounting ".toList,
        "3".toList) :=
  header_parse_roundtrip "ACCT 201A".toList " Financial Accounting ".toList "3".toList
    (by decide) (by decide) (by decide)

/-- Counterexample to C8 as stated: with UNITS = " 3 " (surrounding
whitespace), parsing returns the unit range verbatim, not trimmed. -/
theorem header_parse_roundtrip_counterexample :
    parseHeader "ACCT 201A - Financial Accounting ( 3 )".toList =
      some ("ACCT 201A".toList, "Financial Accounting".toList, " 3 ".toList) ∧
    " 3 ".toList ≠ pyStrip " 3 ".toList := by
  constructor
  · rfl
  · decide

/-- C2 (amended).  Header parsing fails only when the header lacks `'-'`;
a missing parenthesis does not make it fail (`rfind` returns `-1` and
slicing proceeds).  When both parentheses occur in the stripped part after
the first `'-'`, the unit range is the untrimmed substring strictly
between the last `'('` and the last `')'`, and the title is the trimmed
substring before the last `'('`. -/
theorem header_parse_no_failure (header : List Char) :
    ((parseHeader header).isSome ↔ '-' ∈ header) ∧
    (∀ p0 p1 i j, pySplit1 '-' header = [p0, p1] →
      lastIdx? '(' (pyStrip p1) = some i → lastIdx? ')' (pyStrip p1) = some j →
      parseHeader header = some (pyStrip p0, pyStrip ((pyStrip p1).take i),
        ((pyStrip p1).take j).drop (i + 1))) := by
  constructor
  · constructor
    · intro h
      by_contra hm
      unfold parseHeader at h
      rw [pySplit1_not_mem hm] at h
      simp at h
    · intro hm
      obtain ⟨a, b, hna, he⟩ := first_occurrence_split hm
      unfold parseHeader
      rw [he, pySplit1_split hna]
      rfl
  · intro p0 p1 i j hsp hi hj
    unfold parseHeader
    rw [hsp]
    dsimp only
    unfold pyRfind
    rw [hi, hj]
    have hilt := lastIdx?_lt_length hi
    have hjlt := lastIdx?_lt_length hj
    rw [pySlice_nat_succ _ i j (by omega) (by omega)]
    rw [pySlice_zero_coe _ i (by omega)]

/-- Witness for C2's theorem at the header `"A 1 - T (3)"`. -/
theorem header_parse_no_failure_witness :
    parseHeader "A 1 - T (3)".toList =
      some (pyStrip "A 1 ".toList, pyStrip ((pyStrip " T (3)".toList).take 2),
        ((pyStrip " T (3)".toList).take 4).drop 3) :=
  (header_parse_no_failure "A 1 - T (3)".toList).2 "A 1 ".toList " T (3)".toList 2 4
    (by decide) (by decide) (by decide)

/-- Counterexample to C2 as stated: a header whose part after the first
`'-'` contains no parenthesis parses successfully (returning a garbled
title and unit range) instead of failing. -/
theorem header_parse_failure_counterexample :
    parseHeader "ACCT 201A - Financial Accounting 3".toList =
      some ("ACCT 201A".toList, "Financial Accounting".toList,
        "Financial Accounting ".toList) := rfl

/-- C3 (code_bug).  On a raw record with an empty block sequence, both
`reprocess.py:reprocess_course` and `main.py:get_course_info` index
`blocks[0]` blindly and fail (`IndexError`), instead of treating the
description as absent as the spec requires. -/
theorem empty_blocks_crash :
    ReprocessPy.reprocess_course
      { course_id := 1, department := [], header := hdrACCT, blocks := [] } = none ∧
    MainPy.get_course_info (some (hdrACCT, [])) 1 [] = none := by
  exact ⟨rfl, rfl⟩

/-- Auxiliary: how one Python-dict insertion changes lookups. -/
theorem pyDictGet_insert {α : Type} (d : List (Int × α)) (k k2 : Int) (v : α) :
    pyDictGet (pyDictInsert d k v) k2 = if k2 = k then some v else pyDictGet d k2 := by
  induction d with
  | nil =>
    by_cases h : k2 = k
    · simp [pyDictInsert, pyDictGet, List.find?, h]
    · have hb : (k == k2) = false := by
        simp only [beq_eq_false_iff_ne]
        exact fun he => h he.symm
      simp [pyDictInsert, pyDictGet, List.find?, hb, h]
  | cons p ps ih =>
    by_cases hp : p.1 == k
    · have hpk : p.1 = k := by simpa using hp
      by_cases h : k2 = k
      · simp [pyDictInsert, pyDictGet, List.find?, hp, h]
      · have hb : (k == k2) = false := by
          simp only [beq_eq_false_iff_ne]
          exact fun he => h he.symm
        have hb2 : (p.1 == k2) = false := by
          simp only [beq_eq_false_iff_ne]
          rw [hpk]
          exact fun he => h he.symm
        simp [pyDictInsert, pyDictGet, List.find?, hp, hb, hb2, h]
    · by_cases hq : p.1 == k2
      · have h : ¬ (k2 = k) := by
          intro he
          rw [he] at hq
          rw [hq] at hp
          exact hp rfl
        simp [pyDictInsert, pyDictGet, List.find?, hp, hq, h]
      · simp only [pyDictInsert]
        rw [if_neg hp]
        have e : pyDictGet (p :: pyDictInsert ps k v) k2
            = pyDictGet (pyDictInsert ps k v) k2 := by
          simp [pyDictGet, List.find?, hq]
        have e2 : pyDictGet (p :: ps) k2 = pyDictGet ps k2 := by
          simp [pyDictGet, List.find?, hq]
        rw [e, ih, e2]

/-- C4 (amended).  In `main.py` the output dictionary maps each identifier
to the record last inserted with it (last-write-wins): looking up `k`
after folding any insertion sequence over `pyDictInsert` yields the last
write with key `k`, falling back to the prior dictionary. -/
theorem output_last_write_wins (inserts : List (Int × MainPy.Course))
    (d : MainPy.MDict) (k : Int) :
    pyDictGet (inserts.foldl (fun acc p => pyDictInsert acc p.1 p.2) d) k =
      match lastWrite k inserts with
      | some v => some v
      | none => pyDictGet d k := by
  induction inserts generalizing d with
  | nil => simp [lastWrite]
  | cons p ps ih =>
    rw [List.foldl_cons, ih]
    have hl : lastWrite k (p :: ps) =
        match lastWrite k ps with
        | some v => some v
        | none => if p.1 == k then some p.2 else none := by
      unfold lastWrite
      rw [List.reverse_cons, List.find?_append]
      cases hf : List.find? (fun q => q.1 == k) ps.reverse with
      | some q => rfl
      | none =>
        cases hq : (p.1 == k) with
        | true => simp [List.find?, hq, Option.or]
        | false => simp [List.find?, hq, Option.or]
    rw [hl]
    cases lastWrite k ps with
    | some v => rfl
    | none =>
      rw [pyDictGet_insert]
      by_cases h : k = p.1
      · have hb : (p.1 == k) = true := by simp [h]
        simp [h, hb]
      · have hb : (p.1 == k) = false := by
          simp only [beq_eq_false_iff_ne]
          exact fun he => h he.symm
        simp [h, hb]

/-- Counterexample to C4 as stated: `scrape.py` appends records to an
ordered list, so inserting two records with the same identifier leaves
both in the output — the collection is not a set keyed by identifier. -/
theorem output_collection_counterexample :
    (ScrapePy.loop_through_courses [eContent, eContent2] [uContent, uContent] []).1.map
        RawCourse.course_id = [594896, 594896] ∧
    (ScrapePy.loop_through_courses [eContent, eContent2] [uContent, uContent] []).1.length
        = 2 ∧
    (ScrapePy.loop_through_courses [eContent, eContent2] [uContent, uContent] []).1.get? 0
      ≠ (ScrapePy.loop_through_courses [eContent, eContent2] [uContent, uContent] []).1.get? 1 ∧
    (ScrapePy.loop_through_courses [eContent, eContent2] [uContent, uContent] []).2 = true := by
  refine ⟨rfl, rfl, by decide, rfl⟩

/-- Auxiliary: on equal lengths the `main.py` strict-zip loop is exactly
the pairwise walk over the zipped rows. -/
theorem mainLoopGo_eq_loopPairs (es : List ERow) (us : List URow)
    (sd : List Char × MainPy.MDict) (h : es.length = us.length) :
    MainPy.loopGo es us sd = MainPy.loopPairs (es.zip us) sd := by
  induction es generalizing us sd with
  | nil =>
    cases us with
    | nil => rfl
    | cons u us => simp at h
  | cons e es ih =>
    cases us with
    | nil => simp at h
    | cons u us =>
      simp only [MainPy.loopGo, List.zip_cons_cons, MainPy.loopPairs]
      cases h2 : MainPy.rowStep (e, u) sd with
      | none => rfl
      | some sd2 =>
        exact ih us sd2 (by simp at h; omega)

/-- Auxiliary: on unequal lengths the `main.py` loop fails, but its
dictionary equals the pairwise walk over the common prefix of pairs. -/
theorem mainLoopGo_ne (es : List ERow) (us : List URow)
    (sd : List Char × MainPy.MDict) (h : es.length ≠ us.length) :
    (MainPy.loopGo es us sd).2 = false ∧
    (MainPy.loopGo es us sd).1 = (MainPy.loopPairs (es.zip us) sd).1 := by
  induction es generalizing us sd with
  | nil =>
    cases us with
    | nil => simp at h
    | cons u us => exact ⟨rfl, rfl⟩
  | cons e es ih =>
    cases us with
    | nil => exact ⟨rfl, rfl⟩
    | cons u us =>
      simp only [MainPy.loopGo, List.zip_cons_cons, MainPy.loopPairs]
      cases h2 : MainPy.rowStep (e, u) sd with
      | none => exact ⟨rfl, rfl⟩
      | some sd2 =>
        exact ih us sd2 (by simp at h ⊢; omega)

/-- Auxiliary: scrape-side analogue of `mainLoopGo_eq_loopPairs`. -/
theorem scrapeLoopGo_eq_loopPairs (es : List ERow) (us : List URow)
    (sd : List Char × List RawCourse) (h : es.length = us.length) :
    ScrapePy.loopGo es us sd = ScrapePy.loopPairs (es.zip us) sd := by
  induction es generalizing us sd with
  | nil =>
    cases us with
    | nil => rfl
    | cons u us => simp at h
  | cons e es ih =>
    cases us with
    | nil => simp at h
    | cons u us =>
      simp only [ScrapePy.loopGo, List.zip_cons_cons, ScrapePy.loopPairs]
      cases h2 : ScrapePy.rowStep (e, u) sd with
      | none => rfl
      | some sd2 =>
        exact ih us sd2 (by simp at h; omega)

/-- Auxiliary: scrape-side analogue of `mainLoopGo_ne`. -/
theorem scrapeLoopGo_ne (es : List ERow) (us : List URow)
    (sd : List Char × List RawCourse) (h : es.length ≠ us.length) :
    (ScrapePy.loopGo es us sd).2 = false ∧
    (ScrapePy.loopGo es us sd).1 = (ScrapePy.loopPairs (es.zip us) sd).1 := by
  induction es generalizing us sd with
  | nil =>
    cases us with
    | nil => simp at h
    | cons u us => exact ⟨rfl, rfl⟩
  | cons e es ih =>
    cases us with
    | nil => exact ⟨rfl, rfl⟩
    | cons u us =>
      simp only [ScrapePy.loopGo, List.zip_cons_cons, ScrapePy.loopPairs]
      cases h2 : ScrapePy.rowStep (e, u) sd with
      | none => exact ⟨rfl, rfl⟩
      | some sd2 =>
        exact ih us sd2 (by simp at h ⊢; omega)

/-- C5 (amended).  Equal-length row sequences are walked strictly pairwise
in document order; unequal lengths make the per-page loop raise a fatal
error, but the records produced from row pairs before the mismatch is
detected remain in the shared output collection (Python's strict `zip`
yields the common prefix before raising). -/
theorem alignment_strict_zip :
    (∀ (es : List ERow) (us : List URow) (d : MainPy.MDict),
      (es.length = us.length →
        MainPy.loop_through_courses es us d = MainPy.loopPairs (es.zip us) ([], d)) ∧
      (es.length ≠ us.length →
        (MainPy.loop_through_courses es us d).2 = false ∧
        (MainPy.loop_through_courses es us d).1
          = (MainPy.loopPairs (es.zip us) ([], d)).1)) ∧
    (∀ (es : List ERow) (us : List URow) (cs : List RawCourse),
      (es.length = us.length →
        ScrapePy.loop_through_courses es us cs = ScrapePy.loopPairs (es.zip us) ([], cs)) ∧
      (es.length ≠ us.length →
        (ScrapePy.loop_through_courses es us cs).2 = false ∧
        (ScrapePy.loop_through_courses es us cs).1
          = (ScrapePy.loopPairs (es.zip us) ([], cs)).1)) := by
  constructor
  · intro es us d
    exact ⟨fun h => mainLoopGo_eq_loopPairs es us ([], d) h,
      fun h => mainLoopGo_ne es us ([], d) h⟩
  · intro es us cs
    exact ⟨fun h => scrapeLoopGo_eq_loopPairs es us ([], cs) h,
      fun h => scrapeLoopGo_ne es us ([], cs) h⟩

/-- Witness for C5's theorem: a page of one expanded row against two
unexpanded rows fails, with the dictionary equal to the prefix walk. -/
theorem alignment_strict_zip_witness :
    (MainPy.loop_through_courses [eContent] [uContent, uContent] []).2 = false ∧
    (MainPy.loop_through_courses [eContent] [uContent, uContent] []).1
      = (MainPy.loopPairs ([eContent].zip [uContent, uContent]) ([], [])).1 :=
  (alignment_strict_zip.1 [eContent] [uContent, uContent] []).2 (by decide)

/-- Counterexample to C5 as stated: on the mismatched page the loop fails,
yet the record built from the pair before the mismatch (id 594896) is in
the output — the page's rows are not all excluded. -/
theorem alignment_prefix_counterexample :
    (MainPy.loop_through_courses [eContent] [uContent, uContent] []).2 = false ∧
    ((MainPy.loop_through_courses [eContent] [uContent, uContent] []).1).map Prod.fst
      = [594896] := ⟨rfl, rfl⟩

/-- Auxiliary: everything `takeWhile p` keeps satisfies `p`. -/
theorem all_takeWhile {α : Type} (p : α → Bool) (l : List α) :
    (l.takeWhile p).all p = true := by
  induction l with
  | nil => rfl
  | cons x xs ih =>
    rw [List.takeWhile_cons]
    by_cases h : p x
    · simp [h, ih]
    · simp [h]

/-- C6 (amended).  The course level is computed from
`course_code.split(" ")[1]` — a single-space split, not a whitespace
split: when that element exists and starts with a digit, the level is the
decimal value of its maximal leading digit run; when it is empty or starts
with a non-digit, `int("")`/`int` fails fatally. -/
theorem course_level_split_space (code tok : List Char)
    (h : (pySplitAll ' ' code).get? 1 = some tok) :
    ((∃ d rest, tok = d :: rest ∧ pyIsDigit d = true) →
      courseLevel code = some (digitsToNat (tok.takeWhile pyIsDigit))) ∧
    ((tok = [] ∨ ∃ d rest, tok = d :: rest ∧ pyIsDigit d = false) →
      courseLevel code = none) := by
  constructor
  · rintro ⟨d, rest, he, hd⟩
    unfold courseLevel pyIntDigits
    rw [h]
    dsimp only
    rw [if_pos ?_]
    constructor
    · rw [he, List.takeWhile_cons, if_pos hd]
      intro hx
      cases hx
    · exact all_takeWhile pyIsDigit tok
  · rintro (he | ⟨d, rest, he, hd⟩)
    · unfold courseLevel
      rw [h, he]
      rfl
    · unfold courseLevel
      rw [h, he]
      dsimp only
      rw [List.takeWhile_cons, if_neg (by simp [hd])]
      rfl

/-- Witness for C6's theorem on the spec's two examples. -/
theorem course_level_split_space_witness :
    courseLevel "ACCT 201A".toList
        = some (digitsToNat ("201A".toList.takeWhile pyIsDigit)) ∧
    courseLevel "EGCP 10S".toList
        = some (digitsToNat ("10S".toList.takeWhile pyIsDigit)) :=
  ⟨(course_level_split_space "ACCT 201A".toList "201A".toList (by decide)).1
      ⟨'2', "01A".toList, rfl, by decide⟩,
   (course_level_split_space "EGCP 10S".toList "10S".toList (by decide)).1
      ⟨'1', "0S".toList, rfl, by decide⟩⟩

/-- Counterexample to C6 as stated: in `"ACCT  201A"` (two spaces) the
second whitespace-separated token is `"201A"`, which starts with a digit,
yet level derivation fails because `split(" ")[1]` is the empty string. -/
theorem course_level_whitespace_counterexample :
    (wsTokens "ACCT  201A".toList).get? 1 = some "201A".toList ∧
    pyIsDigit '2' = true ∧
    courseLevel "ACCT  201A".toList = none := by
  refine ⟨by decide, by decide, rfl⟩

/-- Auxiliary: with no `<br>` among the remaining siblings, the segment
walk closes at most one more block: the trimmed space-joined accumulation. -/
theorem segGo_no_br (ns : List Node) (h : Node.br ∉ ns) (cur : List Char)
    (acc : List (List Char)) :
    segGo ns cur acc =
      if pyStrip (cur ++ visibleJoin ns) = [] then acc
      else acc ++ [pyStrip (cur ++ visibleJoin ns)] := by
  induction ns generalizing cur with
  | nil =>
    simp only [segGo, visibleJoin, List.append_nil]
    by_cases hc : pyStrip cur = []
    · rw [if_pos hc, if_neg (by simp [hc])]
    · rw [if_neg hc, if_pos hc]
  | cons n ns ih =>
    cases n with
    | br => exact absurd (List.mem_cons_self _ _) h
    | txt t =>
      have h2 : Node.br ∉ ns := fun hm => h (List.mem_cons_of_mem _ hm)
      simp only [segGo, visibleJoin]
      by_cases ht : pyStrip t = []
      · rw [if_neg (by simp [ht]), if_pos ht, ih h2 cur]
        rfl
      · rw [if_pos ht, if_neg ht, ih h2 (cur ++ ' ' :: pyStrip t)]
        rw [List.append_assoc]

/-- Auxiliary: every block the segment walk emits is trimmed and
non-empty, provided the accumulator already satisfies that. -/
theorem segGo_blocks_stripped (ns : List Node) (cur : List Char)
    (acc : List (List Char)) (hacc : ∀ b ∈ acc, pyStrip b = b ∧ b ≠ []) :
    ∀ b ∈ segGo ns cur acc, pyStrip b = b ∧ b ≠ [] := by
  induction ns generalizing cur acc with
  | nil =>
    intro b hb
    simp only [segGo] at hb
    by_cases hc : pyStrip cur ≠ []
    · rw [if_pos hc] at hb
      rcases List.mem_append.mp hb with h1 | h1
      · exact hacc b h1
      · have : b = pyStrip cur := by simpa using h1
        exact ⟨by rw [this, pyStrip_idem], by rw [this]; exact hc⟩
    · rw [if_neg hc] at hb
      exact hacc b hb
  | cons n ns ih =>
    cases n with
    | br =>
      intro b hb
      simp only [segGo] at hb
      by_cases hc : pyStrip cur ≠ []
      · rw [if_pos hc] at hb
        refine ih [] (acc ++ [pyStrip cur]) ?_ b hb
        intro b2 hb2
        rcases List.mem_append.mp hb2 with h1 | h1
        · exact hacc b2 h1
        · have : b2 = pyStrip cur := by simpa using h1
          exact ⟨by rw [this, pyStrip_idem], by rw [this]; exact hc⟩
      · rw [if_neg hc] at hb
        exact ih cur acc hacc b hb
    | txt t =>
      intro b hb
      simp only [segGo] at hb
      by_cases ht : pyStrip t ≠ []
      · rw [if_pos ht] at hb
        exact ih (cur ++ ' ' :: pyStrip t) acc hacc b hb
      · rw [if_neg ht] at hb
        exact ih cur acc hacc b hb

/-- Auxiliary: the `scrape.py` walk is the `main.py` walk with
`clean_text` applied to each completed block. -/
theorem segGoClean_map (ns : List Node) (cur : List Char) (acc : List (List Char)) :
    segGoClean ns cur (acc.map cleanText) = (segGo ns cur acc).map cleanText := by
  induction ns generalizing cur acc with
  | nil =>
    simp only [segGoClean, segGo]
    by_cases hc : pyStrip cur ≠ []
    · rw [if_pos hc, if_pos hc, List.map_append]
      rfl
    · rw [if_neg hc, if_neg hc]
  | cons n ns ih =>
    cases n with
    | br =>
      simp only [segGoClean, segGo]
      by_cases hc : pyStrip cur ≠ []
      · rw [if_pos hc, if_pos hc]
        have e : acc.map cleanText ++ [cleanText (pyStrip cur)]
            = (acc ++ [pyStrip cur]).map cleanText := by
          rw [List.map_append]
          rfl
        rw [e, ih [] (acc ++ [pyStrip cur])]
      · rw [if_neg hc, if_neg hc]
        exact ih cur acc
    | txt t =>
      simp only [segGoClean, segGo]
      by_cases ht : pyStrip t ≠ []
      · rw [if_pos ht, if_pos ht]
        exact ih (cur ++ ' ' :: pyStrip t) acc
      · rw [if_neg ht, if_neg ht]
        exact ih cur acc

/-- C7 (confirmed).  A fragment without line-break markers segments to
exactly one block — the trimmed space-joined accumulation of the
siblings' visible text — or zero blocks when that text is empty; every
emitted block is trimmed and non-empty; and the `scrape.py` segmenter is
the `main.py` segmenter with the normalizer applied per block. -/
theorem segmenter_single_block :
    (∀ ns : List Node, Node.br ∉ ns →
      segmentBlocks ns =
        if pyStrip (visibleJoin ns) = [] then []
        else [pyStrip (visibleJoin ns)]) ∧
    (∀ (ns : List Node) (b : List Char), b ∈ segmentBlocks ns →
      pyStrip b = b ∧ b ≠ []) ∧
    (∀ ns : List Node, segmentBlocksClean ns = (segmentBlocks ns).map cleanText) := by
  refine ⟨?_, ?_, ?_⟩
  · intro ns h
    unfold segmentBlocks
    rw [segGo_no_br ns h [] []]
    simp
  · intro ns b hb
    exact segGo_blocks_stripped ns [] []
      (fun b2 hb2 => absurd hb2 (List.not_mem_nil b2)) b hb
  · intro ns
    have h := segGoClean_map ns [] []
    simpa using h

/-- Witness for C7's theorem on a two-sibling fragment without breaks. -/
theorem segmenter_single_block_witness :
    segmentBlocks [Node.txt "a ".toList, Node.txt " b".toList] =
      (if pyStrip (visibleJoin [Node.txt "a ".toList, Node.txt " b".toList]) = []
       then [] else [pyStrip (visibleJoin [Node.txt "a ".toList, Node.txt " b".toList])]) ∧
    (pyStrip "a b".toList = "a b".toList ∧ "a b".toList ≠ []) :=
  ⟨segmenter_single_block.1 _ (by decide),
   segmenter_single_block.2.1 [Node.txt "a ".toList, Node.txt " b".toList] _ (by decide)⟩

/-- Auxiliary: membership in the unknown-character set built by
`clean_text`'s diagnostic loop. -/
theorem unknownChars_mem_aux (text : List Char) (acc : List Char) (c : Char) :
    (c ∈ text.foldl
      (fun acc c =>
        if 127 < c.toNat ∧ replaceLookup c = none ∧ ¬ acc.contains c
        then acc ++ [c] else acc) acc) ↔
    c ∈ acc ∨ (c ∈ text ∧ 127 < c.toNat ∧ replaceLookup c = none) := by
  induction text generalizing acc with
  | nil => simp
  | cons x xs ih =>
    rw [List.foldl_cons, ih]
    by_cases hx : 127 < x.toNat ∧ replaceLookup x = none ∧ ¬ (acc.contains x)
    · rw [if_pos hx]
      constructor
      · rintro (hm | hm)
        · rcases List.mem_append.mp hm with h1 | h1
          · exact Or.inl h1
          · have hcx : c = x := by simpa using h1
            exact Or.inr ⟨by rw [hcx]; exact List.mem_cons_self x xs,
              by rw [hcx]; exact hx.1, by rw [hcx]; exact hx.2.1⟩
        · exact Or.inr ⟨List.mem_cons_of_mem _ hm.1, hm.2⟩
      · rintro (hm | ⟨hm, h1, h2⟩)
        · exact Or.inl (List.mem_append.mpr (Or.inl hm))
        · rcases List.mem_cons.mp hm with hcx | hcx
          · exact Or.inl (List.mem_append.mpr (Or.inr (by simp [hcx])))
          · exact Or.inr ⟨hcx, h1, h2⟩
    · rw [if_neg hx]
      constructor
      · rintro (hm | hm)
        · exact Or.inl hm
        · exact Or.inr ⟨List.mem_cons_of_mem _ hm.1, hm.2⟩
      · rintro (hm | ⟨hm, h1, h2⟩)
        · exact Or.inl hm
        · rcases List.mem_cons.mp hm with hcx | hcx
          · subst hcx
            have hcont : acc.contains c = true := by
              by_contra hcc
              exact hx ⟨h1, h2, by simpa using hcc⟩
            have : c ∈ acc := by
              have := List.elem_iff.mp hcont
              exact this
            exact Or.inl this
          · exact Or.inr ⟨hcx, h1, h2⟩

/-- Auxiliary: the unknown-character set never accumulates duplicates. -/
theorem unknownChars_nodup_aux (text : List Char) (acc : List Char)
    (hacc : acc.Nodup) :
    (text.foldl
      (fun acc c =>
        if 127 < c.toNat ∧ replaceLookup c = none ∧ ¬ acc.contains c
        then acc ++ [c] else acc) acc).Nodup := by
  induction text generalizing acc with
  | nil => exact hacc
  | cons x xs ih =>
    rw [List.foldl_cons]
    by_cases hx : 127 < x.toNat ∧ replaceLookup x = none ∧ ¬ (acc.contains x)
    · rw [if_pos hx]
      refine ih (acc ++ [x]) ?_
      rw [List.nodup_append]
      refine ⟨hacc, List.nodup_singleton x, ?_⟩
      intro a ha hb
      have hax : a = x := by simpa using hb
      subst hax
      have : acc.contains a = true := List.elem_iff.mpr ha
      exact hx.2.2 this
    · rw [if_neg hx]
      exact ih acc hacc

/-- C9 (amended).  Every target of the substitution table lies in the
ASCII range, and per invocation the normalizer diagnoses exactly one entry
per distinct character that is above the ASCII range and not in the map
(the table itself is not one-to-one: see the counterexample). -/
theorem normalizer_contract :
    (∀ p ∈ REPLACE_CHAR_MAP, ∀ ch ∈ p.2, ch.toNat ≤ 127) ∧
    (∀ (text : List Char) (c : Char),
      c ∈ unknownChars text ↔
        c ∈ text ∧ 127 < c.toNat ∧ replaceLookup c = none) ∧
    (∀ text : List Char, (unknownChars text).Nodup) := by
  refine ⟨by decide, ?_, ?_⟩
  · intro text c
    unfold unknownChars
    rw [unknownChars_mem_aux]
    simp
  · intro text
    unfold unknownChars
    exact unknownChars_nodup_aux text [] List.nodup_nil

/-- Witness for C9's theorem: the en-dash maps into ASCII, and a snowman
appearing twice is diagnosed exactly once. -/
theorem normalizer_contract_witness :
    ('-'.toNat ≤ 127) ∧
    ('☃' ∈ unknownChars "a☃b☃".toList) ∧
    (unknownChars "a☃b☃".toList).Nodup :=
  ⟨normalizer_contract.1 ('–', "-".toList) (by decide) '-' (by decide),
   (normalizer_contract.2.1 "a☃b☃".toList '☃').mpr (by decide),
   normalizer_contract.2.2 "a☃b☃".toList⟩

/-- Counterexample to C9 as stated: the substitution table is not
one-to-one — the left and right double quotation marks are distinct
characters with the same target. -/
theorem normalizer_one_to_one_counterexample :
    replaceLookup '“' = some "\"".toList ∧
    replaceLookup '”' = some "\"".toList ∧
    ('“' : Char) ≠ '”' := ⟨rfl, rfl, by decide⟩

theorem pySplitAll_ne_nil (c : Char) (s : List Char) : pySplitAll c s ≠ [] := by
  induction s with
  | nil => simp [pySplitAll]
  | cons x xs ih =>
    simp only [pySplitAll]
    by_cases h : x = c
    · simp [h]
    · rw [if_neg h]
      cases he : pySplitAll c xs with
      | nil => simp
      | cons a t => simp

theorem pySplitAll_head? (c : Char) (s : List Char) :
    (pySplitAll c s).head? = some (s.takeWhile (fun x => x != c)) := by
  induction s with
  | nil => rfl
  | cons x xs ih =>
    simp only [pySplitAll, List.takeWhile_cons]
    by_cases h : x = c
    · rw [if_pos h]
      have hb : (x != c) = false := by simp [h]
      rw [hb]
      simp
    · rw [if_neg h]
      have hb : (x != c) = true := by simp [h]
      rw [hb]
      cases he : pySplitAll c xs with
      | nil => exact absurd he (pySplitAll_ne_nil c xs)
      | cons a t =>
        rw [he] at ih
        simp only [List.head?_cons, Option.some.injEq] at ih
        simp [ih]

theorem pySplitAll_cons_of_mem {c : Char} {s : List Char} (h : c ∈ s) :
    pySplitAll c s = s.takeWhile (fun x => x != c)
      :: pySplitAll c ((s.dropWhile (fun x => x != c)).tail) := by
  induction s with
  | nil => cases h
  | cons x xs ih =>
    by_cases hx : x = c
    · subst hx
      simp only [pySplitAll, if_pos rfl, List.takeWhile_cons, List.dropWhile_cons]
      have hb : (x != x) = false := by simp
      rw [hb]
      simp
    · have hmem : c ∈ xs := by
        rcases List.mem_cons.mp h with h1 | h1
        · exact absurd h1.symm hx
        · exact h1
      simp only [pySplitAll, if_neg hx, List.takeWhile_cons, List.dropWhile_cons]
      have hb : (x != c) = true := by simp [hx]
      rw [hb, ih hmem]
      simp

theorem pySplitAll_get1_of_mem {c : Char} {b : List Char} (h : c ∈ b) :
    (pySplitAll c b).get? 1
      = some (((b.dropWhile (fun x => x != c)).tail).takeWhile (fun x => x != c)) := by
  rw [pySplitAll_cons_of_mem h, List.get?_cons_succ, List.get?_zero]
  exact pySplitAll_head? c _

theorem pySplitAll_not_mem {c : Char} {s : List Char} (h : c ∉ s) :
    pySplitAll c s = [s] := by
  induction s with
  | nil => rfl
  | cons x xs ih =>
    have hx : ¬ (x = c) := fun he => h (he ▸ List.mem_cons_self x xs)
    have hxs : c ∉ xs := fun hm => h (List.mem_cons_of_mem _ hm)
    simp only [pySplitAll, if_neg hx, ih hxs]

theorem pyStartsWith_head {s : List Char} {y : Char} {ys : List Char}
    (h : pyStartsWith s (y :: ys) = true) :
    ∃ xs, s = y :: xs ∧ pyStartsWith xs ys = true := by
  cases s with
  | nil => simp [pyStartsWith] at h
  | cons x xs =>
    simp only [pyStartsWith, Bool.and_eq_true] at h
    obtain ⟨h1, h2⟩ := h
    have hxy : x = y := by simpa using h1
    exact ⟨xs, by rw [hxy], h2⟩

theorem pyStartsWith_append {s p q : List Char}
    (h : pyStartsWith s (p ++ q) = true) : pyStartsWith s p = true := by
  induction p generalizing s with
  | nil =>
    cases s with
    | nil => rfl
    | cons x xs => rfl
  | cons y ys ih =>
    have h2 : pyStartsWith s (y :: (ys ++ q)) = true := h
    obtain ⟨xs, hs, h3⟩ := pyStartsWith_head h2
    subst hs
    have h4 := ih h3
    simp [pyStartsWith, h4]

theorem mem_of_pyStartsWith {s p : List Char} (h : pyStartsWith s p = true)
    {a : Char} (ha : a ∈ p) : a ∈ s := by
  induction p generalizing s with
  | nil => cases ha
  | cons y ys ih =>
    obtain ⟨xs, hs, h2⟩ := pyStartsWith_head h
    subst hs
    rcases List.mem_cons.mp ha with h1 | h1
    · exact h1 ▸ List.mem_cons_self _ _
    · exact List.mem_cons_of_mem _ (ih h2 h1)

theorem pyToLower_eq_colon {c : Char} (h : pyToLower c = ':') : c = ':' := by
  unfold pyToLower at h
  cases hf : upperLower.find? (fun p => p.1 == c) with
  | none =>
    rw [hf] at h
    exact h
  | some p =>
    rw [hf] at h
    have hm := List.mem_of_find?_eq_some hf
    have hall : ∀ q ∈ upperLower, q.2 ≠ ':' := by decide
    exact absurd h (hall p hm)

theorem colon_mem_of_lower {b : List Char} (h : ':' ∈ pyLower b) : ':' ∈ b := by
  unfold pyLower at h
  obtain ⟨x, hx, he⟩ := List.mem_map.mp h
  have hxc := pyToLower_eq_colon he
  exact hxc ▸ hx

/-- C1 (amended).  A block whose lowercase starts with "typically offered"
and which contains a colon is assigned the trimmed text between its first
colon and the next colon or end of block (`block.split(":")[1].strip()`) —
not the whole remainder after the first colon; `main.py` additionally
requires the colon right after the prefix; and in `reprocess.py` a block
starting with "typically offered" but containing no colon makes
classification fail with an `IndexError`. -/
theorem typical_offering_assignment :
    (∀ (pc : ProcessedCourse) (block : List Char),
      pyStartsWith (pyLower block) "typically offered".toList = true →
      pyContainsSub (pyLower block) "requisite".toList = false →
      ':' ∈ block →
      ReprocessPy.classifyBlock pc block
        = some { pc with typically_offered := pyStrip (afterFirstColon block) }) ∧
    (∀ (c : MainPy.Course) (block : List Char),
      pyStartsWith (pyLower block) "typically offered:".toList = true →
      pyContainsSub (pyLower block) "requisite".toList = false →
      MainPy.classifyBlock c block
        = some { c with typically_offered := some (pyStrip (afterFirstColon block)) }) ∧
    (∀ (pc : ProcessedCourse) (block : List Char),
      pyStartsWith (pyLower block) "typically offered".toList = true →
      pyContainsSub (pyLower block) "requisite".toList = false →
      ':' ∉ block →
      ReprocessPy.classifyBlock pc block = none) := by
  have hguards : ∀ block : List Char,
      pyStartsWith (pyLower block) "typically offered".toList = true →
      pyStartsWith (pyLower block) "prereq".toList = false ∧
      pyLower block ≠ "undergraduate course not available for graduate credit".toList ∧
      pyLower block ≠ "graduate-level".toList ∧
      pyLower block ≠ "400-level undergraduate course available for graduate credit".toList ∧
      pyLower block ≠ "one or more sections may be offered in any online format.".toList ∧
      pyLower block ≠ "department consent required".toList := by
    intro block hts
    refine ⟨?_, ?_, ?_, ?_, ?_, ?_⟩
    · by_contra hp
      rw [Bool.not_eq_false] at hp
      obtain ⟨xs, hs, _⟩ := pyStartsWith_head hp
      obtain ⟨ys, hs2, _⟩ := pyStartsWith_head hts
      rw [hs] at hs2
      injection hs2 with h1 _
      exact absurd h1 (by decide)
    · intro he
      rw [he] at hts
      exact absurd hts (by decide)
    · intro he
      rw [he] at hts
      exact absurd hts (by decide)
    · intro he
      rw [he] at hts
      exact absurd hts (by decide)
    · intro he
      rw [he] at hts
      exact absurd hts (by decide)
    · intro he
      rw [he] at hts
      exact absurd hts (by decide)
  refine ⟨?_, ?_, ?_⟩
  · intro pc block hts hreq hc
    obtain ⟨hpre, hne2, hne3a, hne3b, hne4, hne5⟩ := hguards block hts
    unfold ReprocessPy.classifyBlock
    dsimp only
    rw [if_neg (by simp; exact ⟨hreq, hpre⟩), if_neg hne2,
      if_neg (by simp; exact ⟨hne3a, hne3b⟩), if_neg hne4, if_neg hne5, if_pos hts,
      pySplitAll_get1_of_mem hc]
    rfl
  · intro c block hts hreq
    have hts0 : pyStartsWith (pyLower block) "typically offered".toList = true := by
      refine pyStartsWith_append (q := ":".toList) ?_
      have e : "typically offered".toList ++ ":".toList = "typically offered:".toList := rfl
      rw [e]
      exact hts
    obtain ⟨hpre, hne2, hne3a, hne3b, hne4, hne5⟩ := hguards block hts0
    have hc : ':' ∈ block :=
      colon_mem_of_lower (mem_of_pyStartsWith hts (by decide))
    unfold MainPy.classifyBlock
    dsimp only
    rw [if_neg (by simp; exact ⟨hreq, hpre⟩), if_neg hne2,
      if_neg (by simp; exact ⟨hne3a, hne3b⟩), if_neg hne4, if_neg hne5, if_pos hts,
      pySplitAll_get1_of_mem hc]
    rfl
  · intro pc block hts hreq hc
    obtain ⟨hpre, hne2, hne3a, hne3b, hne4, hne5⟩ := hguards block hts
    unfold ReprocessPy.classifyBlock
    dsimp only
    rw [if_neg (by simp; exact ⟨hreq, hpre⟩), if_neg hne2,
      if_neg (by simp; exact ⟨hne3a, hne3b⟩), if_neg hne4, if_neg hne5, if_pos hts,
      pySplitAll_not_mem hc]
    rfl

/-- Witness for C1's theorem on the block "Typically Offered: Fall/Spring". -/
theorem typical_offering_assignment_witness :
    ReprocessPy.classifyBlock pcInit "Typically Offered: Fall/Spring".toList
      = some { pcInit with
          typically_offered := pyStrip (afterFirstColon "Typically Offered: Fall/Spring".toList) } :=
  typical_offering_assignment.1 pcInit "Typically Offered: Fall/Spring".toList
    (by decide) (by decide) (by decide)

/-- Counterexample to C1 as stated: on a block with two colons both
classifiers assign "Fall" — the text between the first and second colon —
while the trimmed remainder after the first colon is "Fall: odd years";
the two differ, so the assigned value is not "all text following the
first colon". -/
theorem typical_offering_counterexample :
    ReprocessPy.classifyBlock pcInit "Typically Offered: Fall: odd years".toList
      = some { pcInit with typically_offered := "Fall".toList } ∧
    MainPy.classifyBlock mInit "Typically Offered: Fall: odd years".toList
      = some { mInit with typically_offered := some "Fall".toList } ∧
    remainderAfterFirstColon "Typically Offered: Fall: odd years".toList
      = "Fall: odd years".toList ∧
    "Fall".toList ≠ "Fall: odd years".toList := by
  refine ⟨rfl, rfl, rfl, by decide⟩

/-- Auxiliary: one classifier step of `main.py` and of `reprocess.py`
agree on the five heuristic fields whenever a "typically offered" prefix
always comes with its colon. -/
theorem classifyBlock_agree (c : MainPy.Course) (pc : ProcessedCourse)
    (b : List Char) (hagree : FieldsAgree c pc)
    (hb : pyStartsWith (pyLower b) "typically offered".toList = true →
          pyStartsWith (pyLower b) "typically offered:".toList = true) :
    ∃ c2 pc2, MainPy.classifyBlock c b = some c2 ∧
      ReprocessPy.classifyBlock pc b = some pc2 ∧ FieldsAgree c2 pc2 := by
  obtain ⟨a1, a2, a3, a4, a5⟩ := hagree
  unfold MainPy.classifyBlock ReprocessPy.classifyBlock
  dsimp only
  by_cases h1 : (pyContainsSub (pyLower b) "requisite".toList
      || pyStartsWith (pyLower b) "prereq".toList) = true
  · rw [if_pos h1, if_pos h1]
    exact ⟨_, _, rfl, rfl, by simp, a2, a3, a4, a5⟩
  · rw [if_neg h1, if_neg h1]
    by_cases h2 : pyLower b
        = "undergraduate course not available for graduate credit".toList
    · rw [if_pos h2, if_pos h2]
      exact ⟨_, _, rfl, rfl, a1, by simp, a3, a4, a5⟩
    · rw [if_neg h2, if_neg h2]
      by_cases h3 : (pyLower b = "graduate-level".toList
          || pyLower b
            = "400-level undergraduate course available for graduate credit".toList) = true
      · rw [if_pos h3, if_pos h3]
        exact ⟨_, _, rfl, rfl, a1, by simp, a3, a4, a5⟩
      · rw [if_neg h3, if_neg h3]
        by_cases h4 : pyLower b
            = "one or more sections may be offered in any online format.".toList
        · rw [if_pos h4, if_pos h4]
          exact ⟨_, _, rfl, rfl, a1, a2, by simp, a4, a5⟩
        · rw [if_neg h4, if_neg h4]
          by_cases h5 : pyLower b = "department consent required".toList
          · rw [if_pos h5, if_pos h5]
            exact ⟨_, _, rfl, rfl, a1, a2, a3, by simp, a5⟩
          · rw [if_neg h5, if_neg h5]
            by_cases h6m : pyStartsWith (pyLower b) "typically offered:".toList = true
            · have hc : ':' ∈ b :=
                colon_mem_of_lower (mem_of_pyStartsWith h6m (by decide))
              have h6r : pyStartsWith (pyLower b) "typically offered".toList = true := by
                refine pyStartsWith_append (q := ":".toList) ?_
                have e : "typically offered".toList ++ ":".toList
                    = "typically offered:".toList := rfl
                rw [e]
                exact h6m
              rw [if_pos h6m, if_pos h6r, pySplitAll_get1_of_mem hc]
              exact ⟨_, _, rfl, rfl, a1, a2, a3, a4, by simp⟩
            · by_cases h6r : pyStartsWith (pyLower b) "typically offered".toList = true
              · exact absurd (hb h6r) h6m
              · rw [if_neg h6m, if_neg h6r]
                exact ⟨c, pc, rfl, rfl, a1, a2, a3, a4, a5⟩

/-- C10 (amended).  The two block-classification loops produce the same
assignments for the five heuristic fields (absent `main.py` keys read as
`reprocess.py` defaults) on every block list in which each block whose
lowercase starts with "typically offered" in fact starts with
"typically offered:". -/
theorem classifier_equivalence (blocks : List (List Char)) (c : MainPy.Course)
    (pc : ProcessedCourse) (hagree : FieldsAgree c pc)
    (hblocks : ∀ b ∈ blocks,
      pyStartsWith (pyLower b) "typically offered".toList = true →
      pyStartsWith (pyLower b) "typically offered:".toList = true) :
    ∃ c2 pc2, MainPy.classifyBlocks c blocks = some c2 ∧
      ReprocessPy.classifyBlocks pc blocks = some pc2 ∧ FieldsAgree c2 pc2 := by
  induction blocks generalizing c pc with
  | nil => exact ⟨c, pc, rfl, rfl, hagree⟩
  | cons b bs ih =>
    obtain ⟨c2, pc2, hc2, hpc2, hagree2⟩ :=
      classifyBlock_agree c pc b hagree (hblocks b (List.mem_cons_self b bs))
    obtain ⟨c3, pc3, hc3, hpc3, hagree3⟩ :=
      ih c2 pc2 hagree2 (fun b2 hb2 => hblocks b2 (List.mem_cons_of_mem _ hb2))
    refine ⟨c3, pc3, ?_, ?_, hagree3⟩
    · simp only [MainPy.classifyBlocks, hc2]
      exact hc3
    · simp only [ReprocessPy.classifyBlocks, hpc2]
      exact hpc3

/-- Witness for C10's theorem on a department-consent block. -/
theorem classifier_equivalence_witness :
    ∃ c2 pc2,
      MainPy.classifyBlocks mInit ["Department consent required".toList] = some c2 ∧
      ReprocessPy.classifyBlocks pcInit ["Department consent required".toList]
        = some pc2 ∧
      FieldsAgree c2 pc2 :=
  classifier_equivalence ["Department consent required".toList] mInit pcInit
    (by constructor <;> simp [mInit, pcInit]) (by decide)

/-- Counterexample to C10 as stated: on the block
"Typically offered in Fall: yes" `main.py` assigns nothing (its rule
requires the colon right after the prefix) while `reprocess.py` assigns
"yes" — the two loops disagree. -/
theorem classifier_equivalence_counterexample :
    MainPy.classifyBlocks mInit ["Typically offered in Fall: yes".toList]
      = some mInit ∧
    ReprocessPy.classifyBlocks pcInit ["Typically offered in Fall: yes".toList]
      = some { pcInit with typically_offered := "yes".toList } ∧
    mInit.typically_offered.getD [] ≠ "yes".toList := by
  refine ⟨rfl, rfl, by decide⟩

end TuffyScraper
